import Mathlib

/-!
Verification development for the Roulette round engine.

The game logic (createGameState, placeBet, clearBets, getTotalBet,
generateResult, resolveBets, isBetWin, arraysEqual) is translated from the
game module of the repository; the static tables (bet categories, payout
table, red numbers, the double-zero sentinel) are translated from types.ts.
JavaScript numbers are modelled as Int (all quantities in this domain are
integers); the uniform random source of Math.random is modelled as a
rational in the half-open unit interval; the requestAnimationFrame loop of
wheel.ts is modelled as a recursion over a list of frame timestamps.
-/

namespace Roulette

/-- The thirteen bet categories of types.ts. -/
inductive BetType where
  | straight
  | split
  | street
  | corner
  | sixline
  | column
  | dozen
  | red
  | black
  | odd
  | even
  | low
  | high
deriving DecidableEq

/-- The three phases of the round state machine. -/
inductive GamePhase where
  | betting
  | spinning
  | result
deriving DecidableEq

/-- A wager: category, target pockets (as stored, an ordered array), amount. -/
structure Bet where
  type : BetType
  numbers : List Int
  amount : Int
deriving DecidableEq

/-- The session record, following the GameState type of types.ts. -/
structure GameState where
  balance : Int
  bets : List Bet
  lastBets : List Bet
  selectedChip : Int
  phase : GamePhase
  lastResult : Option Int
  lastWinAmount : Int
deriving DecidableEq

/-- Payout table of types.ts (paid profit per wagered unit). -/
def PAYOUT_MAP : BetType → Int
  | .straight => 35
  | .split => 17
  | .street => 11
  | .corner => 8
  | .sixline => 5
  | .column => 2
  | .dozen => 2
  | .red => 1
  | .black => 1
  | .odd => 1
  | .even => 1
  | .low => 1
  | .high => 1

/-- The fixed set of red pockets, from types.ts. -/
def RED_NUMBERS : List Int :=
  [1, 3, 5, 7, 9, 12, 14, 16, 18, 19, 21, 23, 25, 27, 30, 32, 34, 36]

/-- Sentinel value for the double-zero pocket, from types.ts. -/
def DOUBLE_ZERO : Int := -1

/-- Fresh session, from createGameState (lastBets starts empty per types.ts). -/
def createGameState (initialBalance : Int) : GameState :=
  { balance := initialBalance
    bets := []
    lastBets := []
    selectedChip := 5
    phase := GamePhase.betting
    lastResult := none
    lastWinAmount := 0 }

/-- Sum of the amounts of a bet list (the reduce in getTotalBet). -/
def totalAmount (l : List Bet) : Int :=
  l.foldl (fun sum b => sum + b.amount) 0

/-- getTotalBet from the game module. -/
def getTotalBet (s : GameState) : Int :=
  totalAmount s.bets

/-- arraysEqual from the game module: length check plus pointwise equality,
which for integer arrays coincides with list equality. -/
def arraysEqual : List Int → List Int → Bool
  | [], [] => true
  | x :: xs, y :: ys => x == y && arraysEqual xs ys
  | _, _ => false

/-- The search predicate of the find call in placeBet. -/
def betMatches (t : BetType) (ns : List Int) (b : Bet) : Bool :=
  b.type == t && arraysEqual b.numbers ns

/-- The mutation performed by placeBet when an equal bet exists: the first
matching entry has its amount increased by the chip value. -/
def addToExisting (t : BetType) (ns : List Int) (chip : Int) : List Bet → List Bet
  | [] => []
  | b :: bs =>
    if betMatches t ns b then { b with amount := b.amount + chip } :: bs
    else b :: addToExisting t ns chip bs

/-- placeBet from the game module: rejects outside the betting phase or when
the chip exceeds the remaining balance; otherwise merges into an existing
equal bet or appends a new one with the chip as amount. -/
def placeBet (s : GameState) (t : BetType) (ns : List Int) : Bool × GameState :=
  if s.phase ≠ GamePhase.betting then (false, s)
  else if s.selectedChip > s.balance - getTotalBet s then (false, s)
  else if s.bets.any (betMatches t ns) then
    (true, { s with bets := addToExisting t ns s.selectedChip s.bets })
  else
    (true, { s with bets := s.bets ++ [{ type := t, numbers := ns, amount := s.selectedChip }] })

/-- clearBets from the game module: unconditionally empties the bet list. -/
def clearBets (s : GameState) : GameState :=
  { s with bets := [] }

/-- isBetWin from the game module. The guard result greater than zero makes
the Lean emod on Int agree with the JavaScript remainder on every evaluated
operand. -/
def isBetWin (bet : Bet) (result : Int) : Bool :=
  match bet.type with
  | .straight | .split | .street | .corner | .sixline => bet.numbers.contains result
  | .column | .dozen => bet.numbers.contains result
  | .red => result > 0 && RED_NUMBERS.contains result
  | .black => result > 0 && !(RED_NUMBERS.contains result)
  | .odd => result > 0 && result % 2 == 1
  | .even => result > 0 && result % 2 == 0
  | .low => result ≥ 1 && result ≤ 18
  | .high => result ≥ 19 && result ≤ 36

/-- The total-win accumulation loop of resolveBets. -/
def roundWin (bets : List Bet) (result : Int) : Int :=
  bets.foldl
    (fun totalWin bet =>
      if isBetWin bet result then totalWin + (bet.amount + bet.amount * PAYOUT_MAP bet.type)
      else totalWin)
    0

/-- resolveBets from the game module: returns the total win and the updated
session. The balance update subtracts the total wager and adds the total
win, with no clamping; the bet list is left in place and lastBets is not
written. -/
def resolveBets (s : GameState) (result : Int) : Int × GameState :=
  let totalWin := roundWin s.bets result
  let totalBet := getTotalBet s
  (totalWin,
   { s with
      balance := s.balance - totalBet + totalWin
      lastResult := some result
      lastWinAmount := totalWin })

/-- generateResult from the game module: the floor of the uniform draw
scaled by the pocket count, with the Math.random value modelled as a
rational in the half-open unit interval. -/
def generateResult (u : ℚ) : Int :=
  ⌊u * 37⌋

/-! Ledger operation sequences. A settle step is a bare resolveBets call;
a round step is resolveBets followed by the clearing of the bet list that
the session controller in main.ts performs right after settlement. -/

/-- One ledger operation applied to the session. -/
inductive LedgerOp where
  | place (t : BetType) (ns : List Int)
  | clear
  | settle (result : Int)
  | round (result : Int)
deriving DecidableEq

/-- Apply one ledger operation. -/
def applyOp (s : GameState) : LedgerOp → GameState
  | .place t ns => (placeBet s t ns).2
  | .clear => clearBets s
  | .settle r => (resolveBets s r).2
  | .round r => clearBets (resolveBets s r).2

/-- Apply a sequence of ledger operations from left to right. -/
def applyOps (s : GameState) (ops : List LedgerOp) : GameState :=
  ops.foldl applyOp s

/-- True on the operations the session controller issues directly: bet
placement, clearing, and settlement immediately followed by clearing. -/
def isControllerOp : LedgerOp → Bool
  | .settle _ => false
  | _ => true

/-- The ledger key of a bet: its category together with its target array. -/
def betKey (b : Bet) : BetType × List Int :=
  (b.type, b.numbers)

/-- No two entries of the bet list share a ledger key. -/
def NoDupKeys (l : List Bet) : Prop :=
  (l.map betKey).Pairwise (fun k₁ k₂ => k₁ ≠ k₂)

/-- The ledger invariant maintained by the controller: the balance is
non-negative, the total active wager fits in the balance, every bet amount
is non-negative, and the selected chip is non-negative. -/
def LedgerInv (s : GameState) : Prop :=
  0 ≤ s.balance ∧ getTotalBet s ≤ s.balance ∧
    (∀ b ∈ s.bets, 0 ≤ b.amount) ∧ 0 ≤ s.selectedChip

/-! Spin scheduler model, from wheel.ts. Angle bookkeeping is omitted: it
feeds only the canvas draw calls and never the control flow, which depends
only on the frame timestamps, the start time and the randomized duration.
The requestAnimationFrame loop is modelled as a recursion over the list of
frame timestamps the environment delivers; an exhausted list means the
animation is still pending (the promise has not resolved yet). -/

/-- Bounce phase duration from wheel.ts. -/
def BOUNCE_DURATION_MS : ℚ := 600

/-- The bounce callback chain: keeps scheduling itself while the bounce
progress is below one, then resolves the promise with the target pocket. -/
def bouncePhase (target : Int) (spinEndTime : ℚ) : List ℚ → Option Int
  | [] => none
  | now :: rest =>
    if min ((now - spinEndTime) / BOUNCE_DURATION_MS) 1 < 1 then
      bouncePhase target spinEndTime rest
    else some target

/-- The animate callback chain of the wheel variant with a bounce phase:
keeps scheduling itself while progress is below one, then hands over to the
bounce chain. -/
def animatePhase (target : Int) (startTime duration : ℚ) : List ℚ → Option Int
  | [] => none
  | now :: rest =>
    if min ((now - startTime) / duration) 1 < 1 then
      animatePhase target startTime duration rest
    else bouncePhase target (startTime + duration) rest

/-- The animate callback chain of wheel.ts without a bounce phase: resolves
the promise with the target pocket as soon as progress reaches one. -/
def animatePlain (target : Int) (startTime duration : ℚ) : List ℚ → Option Int
  | [] => none
  | now :: rest =>
    if min ((now - startTime) / duration) 1 < 1 then
      animatePlain target startTime duration rest
    else some target

/-- Environment of one spin call: the reduced-motion media query, the
timestamp at which the spin starts, the randomized duration, and the
timestamps at which animation frames fire. -/
structure SpinEnv where
  reducedMotion : Bool
  startTime : ℚ
  duration : ℚ
  frames : List ℚ
deriving DecidableEq

/-- Resolution value of the promise returned by spin in the wheel variant
with bounce: the reduced-motion path resolves immediately, otherwise the
animate chain runs over the delivered frames. -/
def spinResolved (target : Int) (env : SpinEnv) : Option Int :=
  if env.reducedMotion then some target
  else animatePhase target env.startTime env.duration env.frames

/-- Resolution value of the promise returned by spin in wheel.ts, which has
the reduced-motion skip but no bounce phase. -/
def spinResolvedPlain (target : Int) (env : SpinEnv) : Option Int :=
  if env.reducedMotion then some target
  else animatePlain target env.startTime env.duration env.frames

/-- The spin-button flow of main.ts: the outcome is drawn first, then the
animation is started on that already committed pocket. -/
def roundResolved (u : ℚ) (env : SpinEnv) : Option Int :=
  spinResolved (generateResult u) env

/-! Spec-side predicates used to state the claims. -/

/-- The inside categories, whose win condition is target membership. -/
def insideBet : BetType → Bool
  | .straight | .split | .street | .corner | .sixline | .column | .dozen => true
  | _ => false

/-- The zero pockets: zero itself and the double-zero sentinel. -/
def isZeroPocket (r : Int) : Prop :=
  r = 0 ∨ r = DOUBLE_ZERO

/-- The per-category predicate of the outside bets, in the words of the
specification: red-set membership, parity, and the two ranges. -/
def outsideWinPred : BetType → Int → Prop
  | .red, r => r ∈ RED_NUMBERS
  | .black, r => r ∉ RED_NUMBERS
  | .odd, r => r % 2 = 1
  | .even, r => r % 2 = 0
  | .low, r => 1 ≤ r ∧ r ≤ 18
  | .high, r => 19 ≤ r ∧ r ≤ 36
  | _, _ => False

/-- The payout formula of the specification: the sum, over the winning
bets, of the amount plus the amount times the payout of the category. -/
def specTotalWin (bets : List Bet) (r : Int) : Int :=
  ((bets.filter (fun b => isBetWin b r)).map
    (fun b => b.amount + b.amount * PAYOUT_MAP b.type)).sum

/-! Helper lemmas. -/

lemma arraysEqual_iff : ∀ a b : List Int, arraysEqual a b = true ↔ a = b := by
  intro a
  induction a with
  | nil => intro b; cases b <;> simp [arraysEqual]
  | cons x xs ih =>
    intro b
    cases b with
    | nil => simp [arraysEqual]
    | cons y ys => simp [arraysEqual, ih]

lemma betMatches_iff (t : BetType) (ns : List Int) (b : Bet) :
    betMatches t ns b = true ↔ (b.type = t ∧ b.numbers = ns) := by
  simp [betMatches, arraysEqual_iff]

lemma betMatches_iff_key (t : BetType) (ns : List Int) (b : Bet) :
    betMatches t ns b = true ↔ betKey b = (t, ns) := by
  simp [betMatches_iff, betKey, Prod.ext_iff]

lemma totalAmount_aux (l : List Bet) :
    ∀ acc : Int, l.foldl (fun sum b => sum + b.amount) acc = acc + (l.map Bet.amount).sum := by
  induction l with
  | nil => intro acc; simp
  | cons b bs ih => intro acc; simp [List.foldl, ih]; ring

lemma totalAmount_eq_sum (l : List Bet) : totalAmount l = (l.map Bet.amount).sum := by
  simpa using totalAmount_aux l 0

lemma totalAmount_append (l₁ l₂ : List Bet) :
    totalAmount (l₁ ++ l₂) = totalAmount l₁ + totalAmount l₂ := by
  simp [totalAmount_eq_sum]

lemma totalAmount_nonneg (l : List Bet) (h : ∀ b ∈ l, 0 ≤ b.amount) : 0 ≤ totalAmount l := by
  rw [totalAmount_eq_sum]
  apply List.sum_nonneg
  intro x hx
  obtain ⟨b, hb, rfl⟩ := List.mem_map.mp hx
  exact h b hb

lemma totalAmount_addToExisting (t : BetType) (ns : List Int) (c : Int) :
    ∀ l : List Bet, l.any (betMatches t ns) = true →
      totalAmount (addToExisting t ns c l) = totalAmount l + c := by
  intro l
  induction l with
  | nil => simp
  | cons b bs ih =>
    intro h
    by_cases hb : betMatches t ns b = true
    · simp [addToExisting, hb, totalAmount_eq_sum]
      ring
    · have : bs.any (betMatches t ns) = true := by
        simpa [List.any_cons, hb] using h
      have ih₂ := ih this
      simp [addToExisting, hb, totalAmount_eq_sum] at ih₂ ⊢
      omega

lemma map_betKey_addToExisting (t : BetType) (ns : List Int) (c : Int) :
    ∀ l : List Bet, (addToExisting t ns c l).map betKey = l.map betKey := by
  intro l
  induction l with
  | nil => rfl
  | cons b bs ih =>
    by_cases hb : betMatches t ns b = true
    · simp [addToExisting, hb, betKey]
    · simp [addToExisting, hb, ih]

lemma length_addToExisting (t : BetType) (ns : List Int) (c : Int) (l : List Bet) :
    (addToExisting t ns c l).length = l.length := by
  have := map_betKey_addToExisting t ns c l
  have h₁ := congrArg List.length this
  simpa using h₁

lemma amounts_addToExisting (t : BetType) (ns : List Int) (c : Int) (hc : 0 ≤ c) :
    ∀ l : List Bet, (∀ b ∈ l, 0 ≤ b.amount) →
      ∀ b ∈ addToExisting t ns c l, 0 ≤ b.amount := by
  intro l
  induction l with
  | nil => simp [addToExisting]
  | cons b bs ih =>
    intro h b' hb'
    by_cases hb : betMatches t ns b = true
    · simp [addToExisting, hb] at hb'
      rcases hb' with hb' | hb'
      · have h₀ : 0 ≤ b.amount := h b (by simp)
        subst hb'
        simp
        omega
      · exact h b' (by simp [hb'])
    · simp [addToExisting, hb] at hb'
      rcases hb' with hb' | hb'
      · subst hb'
        exact h b' (by simp)
      · exact ih (fun x hx => h x (by simp [hx])) b' hb'

lemma PAYOUT_MAP_nonneg (t : BetType) : 0 ≤ PAYOUT_MAP t := by
  cases t <;> decide

lemma roundWin_aux (r : Int) :
    ∀ (bets : List Bet) (acc : Int),
      bets.foldl
        (fun totalWin bet =>
          if isBetWin bet r then totalWin + (bet.amount + bet.amount * PAYOUT_MAP bet.type)
          else totalWin)
        acc = acc + specTotalWin bets r := by
  intro bets
  induction bets with
  | nil => intro acc; simp [specTotalWin]
  | cons b bs ih =>
    intro acc
    by_cases h : isBetWin b r = true
    · simp [List.foldl, h, ih, specTotalWin, List.filter_cons]
      ring
    · simp [List.foldl, h, ih, specTotalWin, List.filter_cons]

lemma roundWin_eq_spec (bets : List Bet) (r : Int) :
    roundWin bets r = specTotalWin bets r := by
  simpa [roundWin] using roundWin_aux r bets 0

lemma specTotalWin_nonneg (bets : List Bet) (r : Int)
    (h : ∀ b ∈ bets, 0 ≤ b.amount) : 0 ≤ specTotalWin bets r := by
  apply List.sum_nonneg
  intro x hx
  obtain ⟨b, hb, rfl⟩ := List.mem_map.mp hx
  have hb' : b ∈ bets := List.mem_of_mem_filter hb
  have h₀ := h b hb'
  have h₁ := PAYOUT_MAP_nonneg b.type
  have := mul_nonneg h₀ h₁
  omega

lemma contains_iff_mem (l : List Int) (r : Int) : l.contains r = true ↔ r ∈ l := by
  induction l with
  | nil => simp
  | cons x xs ih => simp [List.contains, List.elem_cons, ih]

lemma ledgerInv_placeBet (s : GameState) (t : BetType) (ns : List Int)
    (h : LedgerInv s) : LedgerInv (placeBet s t ns).2 := by
  obtain ⟨hb, ht, ha, hc⟩ := h
  unfold placeBet
  split_ifs with h1 h2 h3
  · exact ⟨hb, ht, ha, hc⟩
  · exact ⟨hb, ht, ha, hc⟩
  · push_neg at h2
    refine ⟨hb, ?_, ?_, hc⟩
    · show totalAmount (addToExisting t ns s.selectedChip s.bets) ≤ s.balance
      rw [totalAmount_addToExisting t ns s.selectedChip s.bets h3]
      simp only [getTotalBet] at h2 ht
      omega
    · exact amounts_addToExisting t ns s.selectedChip hc s.bets ha
  · push_neg at h2
    refine ⟨hb, ?_, ?_, hc⟩
    · show totalAmount (s.bets ++ [{ type := t, numbers := ns, amount := s.selectedChip }]) ≤ s.balance
      rw [totalAmount_append]
      have hsing : totalAmount [{ type := t, numbers := ns, amount := s.selectedChip }] = s.selectedChip := by
        simp [totalAmount]
      rw [hsing]
      simp only [getTotalBet] at h2 ht
      omega
    · intro b hb'
      rcases List.mem_append.mp hb' with hmem | hmem
      · exact ha b hmem
      · simp at hmem
        subst hmem
        exact hc

lemma ledgerInv_clearBets (s : GameState) (h : LedgerInv s) : LedgerInv (clearBets s) := by
  obtain ⟨hb, ht, ha, hc⟩ := h
  refine ⟨hb, ?_, by simp [clearBets], hc⟩
  show totalAmount [] ≤ s.balance
  simpa [totalAmount] using hb

lemma resolveBets_balance (s : GameState) (r : Int) :
    (resolveBets s r).2.balance = s.balance - getTotalBet s + specTotalWin s.bets r := by
  simp [resolveBets, roundWin_eq_spec]

lemma ledgerInv_round (s : GameState) (r : Int) (h : LedgerInv s) :
    LedgerInv (clearBets (resolveBets s r).2) := by
  obtain ⟨hb, ht, ha, hc⟩ := h
  have hwin : 0 ≤ specTotalWin s.bets r := specTotalWin_nonneg s.bets r ha
  have hbal := resolveBets_balance s r
  refine ⟨?_, ?_, by simp [clearBets], ?_⟩
  · show 0 ≤ (resolveBets s r).2.balance
    rw [hbal]
    omega
  · show totalAmount [] ≤ (resolveBets s r).2.balance
    rw [hbal]
    simp [totalAmount]
    omega
  · exact hc

lemma ledgerInv_applyOp (s : GameState) (op : LedgerOp)
    (h : LedgerInv s) (hop : isControllerOp op = true) : LedgerInv (applyOp s op) := by
  cases op with
  | place t ns => exact ledgerInv_placeBet s t ns h
  | clear => exact ledgerInv_clearBets s h
  | settle r => simp [isControllerOp] at hop
  | round r => exact ledgerInv_round s r h

lemma ledgerInv_applyOps :
    ∀ (ops : List LedgerOp) (s : GameState), LedgerInv s →
      ops.all isControllerOp = true → LedgerInv (applyOps s ops) := by
  intro ops
  induction ops with
  | nil => intro s h _; exact h
  | cons op rest ih =>
    intro s h hall
    have h₁ : isControllerOp op = true := by
      have := List.all_eq_true.mp hall
      exact this op (by simp)
    have h₂ : rest.all isControllerOp = true := by
      rw [List.all_eq_true]
      intro x hx
      exact List.all_eq_true.mp hall x (by simp [hx])
    exact ih (applyOp s op) (ledgerInv_applyOp s op h h₁) h₂

lemma noDupKeys_placeBet (s : GameState) (t : BetType) (ns : List Int)
    (h : NoDupKeys s.bets) : NoDupKeys (placeBet s t ns).2.bets := by
  unfold placeBet
  split_ifs with h1 h2 h3
  · exact h
  · exact h
  · show NoDupKeys (addToExisting t ns s.selectedChip s.bets)
    unfold NoDupKeys
    rw [map_betKey_addToExisting]
    exact h
  · show NoDupKeys (s.bets ++ [{ type := t, numbers := ns, amount := s.selectedChip }])
    unfold NoDupKeys
    rw [List.map_append, List.pairwise_append]
    refine ⟨h, by simp, ?_⟩
    intro k hk k' hk'
    simp [betKey] at hk'
    obtain ⟨b, hbmem, rfl⟩ := List.mem_map.mp hk
    subst hk'
    intro hcontra
    have hbm : betMatches t ns b = true := (betMatches_iff_key t ns b).mpr hcontra
    have : ∃ x ∈ s.bets, betMatches t ns x = true := ⟨b, hbmem, hbm⟩
    exact h3 (List.any_eq_true.mpr this)

lemma noDupKeys_applyOp (s : GameState) (op : LedgerOp)
    (h : NoDupKeys s.bets) : NoDupKeys (applyOp s op).bets := by
  cases op with
  | place t ns => exact noDupKeys_placeBet s t ns h
  | clear => exact List.Pairwise.nil
  | settle r => exact h
  | round r => exact List.Pairwise.nil

lemma noDupKeys_applyOps :
    ∀ (ops : List LedgerOp) (s : GameState), NoDupKeys s.bets →
      NoDupKeys (applyOps s ops).bets := by
  intro ops
  induction ops with
  | nil => intro s h; exact h
  | cons op rest ih => intro s h; exact ih (applyOp s op) (noDupKeys_applyOp s op h)

lemma bouncePhase_some (target : Int) (t0 : ℚ) :
    ∀ (fs : List ℚ) (v : Int), bouncePhase target t0 fs = some v → v = target := by
  intro fs
  induction fs with
  | nil => intro v h; simp [bouncePhase] at h
  | cons f rest ih =>
    intro v h
    by_cases hc : min ((f - t0) / BOUNCE_DURATION_MS) 1 < 1
    · exact ih v (by simpa [bouncePhase, hc] using h)
    · simp [bouncePhase, hc] at h
      exact h.symm

lemma animatePhase_some (target : Int) (t0 d : ℚ) :
    ∀ (fs : List ℚ) (v : Int), animatePhase target t0 d fs = some v → v = target := by
  intro fs
  induction fs with
  | nil => intro v h; simp [animatePhase] at h
  | cons f rest ih =>
    intro v h
    by_cases hc : min ((f - t0) / d) 1 < 1
    · exact ih v (by simpa [animatePhase, hc] using h)
    · refine bouncePhase_some target (t0 + d) rest v ?_
      simpa [animatePhase, hc] using h

lemma animatePlain_some (target : Int) (t0 d : ℚ) :
    ∀ (fs : List ℚ) (v : Int), animatePlain target t0 d fs = some v → v = target := by
  intro fs
  induction fs with
  | nil => intro v h; simp [animatePlain] at h
  | cons f rest ih =>
    intro v h
    by_cases hc : min ((f - t0) / d) 1 < 1
    · exact ih v (by simpa [animatePlain, hc] using h)
    · simp [animatePlain, hc] at h
      exact h.symm

/-! Claim theorems. -/

/-- Claim C1, amended: resolveBets returns the total win, the sum over the
winning bets of the amount plus the amount times the payout of the
category, and sets the new balance to the old balance minus the total
active wager plus the total win, without clamping; whenever the bet
amounts are non-negative and the total active wager does not exceed the
balance, which placement validation guarantees, this value coincides with
the clamped form max 0 of the same expression. -/
theorem claim_C1_settle_payout (s : GameState) (r : Int) :
    (resolveBets s r).1 = specTotalWin s.bets r ∧
    (resolveBets s r).2.balance = s.balance - getTotalBet s + specTotalWin s.bets r ∧
    ((∀ b ∈ s.bets, 0 ≤ b.amount) → getTotalBet s ≤ s.balance →
      (resolveBets s r).2.balance = max 0 (s.balance - getTotalBet s + specTotalWin s.bets r)) := by
  refine ⟨by simp [resolveBets, roundWin_eq_spec], resolveBets_balance s r, ?_⟩
  intro ha ht
  rw [resolveBets_balance s r]
  have hw := specTotalWin_nonneg s.bets r ha
  have hx : 0 ≤ s.balance - getTotalBet s + specTotalWin s.bets r := by omega
  exact (max_eq_right hx).symm

/-- The scenario of claim C1: balance 1000, a straight bet of 5 on 7. -/
def scenarioC1 : GameState :=
  { createGameState 1000 with bets := [{ type := BetType.straight, numbers := [7], amount := 5 }] }

/-- Witness for claim C1: on the scenario session the outcome 7 yields a
total win of 180 and a new balance of 1175, equal to the clamped form. -/
theorem claim_C1_settle_payout_witness :
    (resolveBets scenarioC1 7).1 = 180 ∧ (resolveBets scenarioC1 7).2.balance = 1175 ∧
    (resolveBets scenarioC1 7).2.balance =
      max 0 (scenarioC1.balance - getTotalBet scenarioC1 + specTotalWin scenarioC1.bets 7) := by
  refine ⟨by decide, by decide, ?_⟩
  exact (claim_C1_settle_payout scenarioC1 7).2.2 (by decide) (by decide)

/-- A session outside the reachable states: balance 0 with an open losing
bet of 10. -/
def cexC1 : GameState :=
  { createGameState 0 with bets := [{ type := BetType.odd, numbers := [], amount := 10 }] }

/-- Counterexample to claim C1 as stated: on a session whose total wager
exceeds its balance, resolveBets drives the balance to minus ten, while
the claimed clamped formula evaluates to zero. -/
theorem claim_C1_counterexample :
    (resolveBets cexC1 0).2.balance = -10 ∧
    max 0 (cexC1.balance - getTotalBet cexC1 + (resolveBets cexC1 0).1) = 0 ∧
    (resolveBets cexC1 0).2.balance ≠
      max 0 (cexC1.balance - getTotalBet cexC1 + (resolveBets cexC1 0).1) := by
  decide

/-- Claim C5: placeBet returns false exactly when the phase is not betting
or the selected chip exceeds the balance minus the total of the active
bets, it leaves the session unchanged whenever it returns false, and it
returns true otherwise. -/
theorem claim_C5_placeBet_failure (s : GameState) (t : BetType) (ns : List Int) :
    ((placeBet s t ns).1 = false ↔
      (s.phase ≠ GamePhase.betting ∨ s.selectedChip > s.balance - getTotalBet s)) ∧
    ((placeBet s t ns).1 = false → (placeBet s t ns).2 = s) ∧
    (s.phase = GamePhase.betting → s.selectedChip ≤ s.balance - getTotalBet s →
      (placeBet s t ns).1 = true) := by
  unfold placeBet
  split_ifs with h1 h2 h3
  · simp [h1]
  · simp [h1, h2]
  · push_neg at h2
    simp [h1, h2]
  · push_neg at h2
    simp [h1, h2]

/-- A session in the spinning phase, where placement must fail. -/
def spinPhaseState : GameState :=
  { createGameState 1000 with phase := GamePhase.spinning }

/-- Witness for claim C5: in the spinning phase placeBet leaves the
session unchanged. -/
theorem claim_C5_placeBet_failure_witness :
    (placeBet spinPhaseState BetType.red []).2 = spinPhaseState :=
  (claim_C5_placeBet_failure spinPhaseState BetType.red []).2.1 (by decide)

/-- The session of the C8 failing input: one straight bet of 5 on 7 and an
empty last-round list. -/
def stateC8 : GameState :=
  { createGameState 1000 with bets := [{ type := BetType.straight, numbers := [7], amount := 5 }] }

/-- Claim C8, evaluated at the failing input: resolveBets sets lastResult
and lastWinAmount and leaves the bet list in place, but it never writes
lastBets, which stays empty instead of receiving a copy of the active
bets as the specification requires. -/
theorem claim_C8_lastRoundBets_not_written :
    (resolveBets stateC8 7).2.lastBets = [] ∧
    (resolveBets stateC8 7).2.bets = [{ type := BetType.straight, numbers := [7], amount := 5 }] ∧
    (resolveBets stateC8 7).2.lastBets ≠ (resolveBets stateC8 7).2.bets ∧
    (resolveBets stateC8 7).2.lastResult = some 7 ∧
    (resolveBets stateC8 7).2.lastWinAmount = 180 := by
  decide

/-- Claim C9, amended: clearBets unconditionally empties the bet list and
changes no other field of the session; it performs no phase check of its
own. -/
theorem claim_C9_clearBets_effect (s : GameState) :
    (clearBets s).bets = [] ∧
    (clearBets s).balance = s.balance ∧
    (clearBets s).lastBets = s.lastBets ∧
    (clearBets s).selectedChip = s.selectedChip ∧
    (clearBets s).phase = s.phase ∧
    (clearBets s).lastResult = s.lastResult ∧
    (clearBets s).lastWinAmount = s.lastWinAmount :=
  ⟨rfl, rfl, rfl, rfl, rfl, rfl, rfl⟩

/-- A session in the spinning phase holding one bet. -/
def cexC9 : GameState :=
  { createGameState 1000 with
      phase := GamePhase.spinning
      bets := [{ type := BetType.straight, numbers := [7], amount := 5 }] }

/-- Counterexample to claim C9 as stated: outside the betting phase
clearBets is not a no-op, it still empties the bet list. -/
theorem claim_C9_counterexample :
    cexC9.phase ≠ GamePhase.betting ∧ clearBets cexC9 ≠ cexC9 ∧ (clearBets cexC9).bets = [] := by
  decide

/-- Claim C10: placeBet never modifies the balance, the selected chip, the
phase, the last result, the last win amount, or the last-round bets; on
success it either appends exactly one new bet carrying the selected chip
or merges into an existing entry, preserving the key list and raising the
total wager by the selected chip. The balance is touched only by
resolveBets. -/
theorem claim_C10_placeBet_frame (s : GameState) (t : BetType) (ns : List Int) :
    (placeBet s t ns).2.balance = s.balance ∧
    (placeBet s t ns).2.selectedChip = s.selectedChip ∧
    (placeBet s t ns).2.phase = s.phase ∧
    (placeBet s t ns).2.lastResult = s.lastResult ∧
    (placeBet s t ns).2.lastWinAmount = s.lastWinAmount ∧
    (placeBet s t ns).2.lastBets = s.lastBets ∧
    ((placeBet s t ns).1 = true →
      ((placeBet s t ns).2.bets =
          s.bets ++ [{ type := t, numbers := ns, amount := s.selectedChip }] ∨
        ((placeBet s t ns).2.bets.map betKey = s.bets.map betKey ∧
          getTotalBet (placeBet s t ns).2 = getTotalBet s + s.selectedChip))) := by
  unfold placeBet
  split_ifs with h1 h2 h3
  · simp
  · simp
  · refine ⟨rfl, rfl, rfl, rfl, rfl, rfl, fun _ => Or.inr ⟨?_, ?_⟩⟩
    · exact map_betKey_addToExisting t ns s.selectedChip s.bets
    · exact totalAmount_addToExisting t ns s.selectedChip s.bets h3
  · exact ⟨rfl, rfl, rfl, rfl, rfl, rfl, fun _ => Or.inl rfl⟩

/-- Witness for claim C10: a successful placement on a fresh session
appends the new bet or merges into an existing one. -/
theorem claim_C10_placeBet_frame_witness :
    (placeBet (createGameState 1000) BetType.straight [7]).2.bets =
        (createGameState 1000).bets ++
          [{ type := BetType.straight, numbers := [7],
             amount := (createGameState 1000).selectedChip }] ∨
      ((placeBet (createGameState 1000) BetType.straight [7]).2.bets.map betKey =
          (createGameState 1000).bets.map betKey ∧
        getTotalBet (placeBet (createGameState 1000) BetType.straight [7]).2 =
          getTotalBet (createGameState 1000) + (createGameState 1000).selectedChip) :=
  (claim_C10_placeBet_frame (createGameState 1000) BetType.straight [7]).2.2.2.2.2.2 (by decide)

/-- Claim C2: an inside bet wins exactly when the outcome is a member of
its target pockets, an outside bet wins exactly when the outcome is not a
zero pocket and satisfies the category predicate (red-set membership,
parity, or range), and both zero pockets lose every outside bet; stated
over all pockets of the configured wheels, minus one through thirty-six. -/
theorem claim_C2_win_condition (b : Bet) (r : Int) (h1 : -1 ≤ r) (h2 : r ≤ 36) :
    (insideBet b.type = true → ((isBetWin b r = true) ↔ r ∈ b.numbers)) ∧
    (insideBet b.type = false →
      ((isBetWin b r = true) ↔ (¬ isZeroPocket r ∧ outsideWinPred b.type r))) ∧
    (isZeroPocket r → insideBet b.type = false → isBetWin b r = false) := by
  obtain ⟨t, ns, a⟩ := b
  have hz : ∀ p : Prop, ((0 < r ∧ p) ↔ (¬ isZeroPocket r ∧ p)) := by
    intro p
    simp only [isZeroPocket, DOUBLE_ZERO, not_or]
    constructor
    · rintro ⟨hgt, hp⟩
      exact ⟨⟨by omega, by omega⟩, hp⟩
    · rintro ⟨⟨hne0, hnem⟩, hp⟩
      exact ⟨by omega, hp⟩
  cases t
  case straight =>
    refine ⟨fun _ => ?_, by simp [insideBet], by simp [insideBet]⟩
    simp [isBetWin, contains_iff_mem]
  case split =>
    refine ⟨fun _ => ?_, by simp [insideBet], by simp [insideBet]⟩
    simp [isBetWin, contains_iff_mem]
  case street =>
    refine ⟨fun _ => ?_, by simp [insideBet], by simp [insideBet]⟩
    simp [isBetWin, contains_iff_mem]
  case corner =>
    refine ⟨fun _ => ?_, by simp [insideBet], by simp [insideBet]⟩
    simp [isBetWin, contains_iff_mem]
  case sixline =>
    refine ⟨fun _ => ?_, by simp [insideBet], by simp [insideBet]⟩
    simp [isBetWin, contains_iff_mem]
  case column =>
    refine ⟨fun _ => ?_, by simp [insideBet], by simp [insideBet]⟩
    simp [isBetWin, contains_iff_mem]
  case dozen =>
    refine ⟨fun _ => ?_, by simp [insideBet], by simp [insideBet]⟩
    simp [isBetWin, contains_iff_mem]
  case red =>
    refine ⟨by simp [insideBet], fun _ => ?_, fun hzp _ => ?_⟩
    · rw [show outsideWinPred BetType.red r = (r ∈ RED_NUMBERS) from rfl]
      rw [← hz (r ∈ RED_NUMBERS)]
      simp [isBetWin, contains_iff_mem]
    · rcases hzp with h0 | h0 <;> rw [h0] <;> simp [isBetWin, DOUBLE_ZERO]
  case black =>
    refine ⟨by simp [insideBet], fun _ => ?_, fun hzp _ => ?_⟩
    · rw [show outsideWinPred BetType.black r = (r ∉ RED_NUMBERS) from rfl]
      rw [← hz (r ∉ RED_NUMBERS)]
      simp [isBetWin, contains_iff_mem]
    · rcases hzp with h0 | h0 <;> rw [h0] <;> simp [isBetWin, DOUBLE_ZERO]
  case odd =>
    refine ⟨by simp [insideBet], fun _ => ?_, fun hzp _ => ?_⟩
    · rw [show outsideWinPred BetType.odd r = (r % 2 = 1) from rfl]
      rw [← hz (r % 2 = 1)]
      simp [isBetWin]
    · rcases hzp with h0 | h0 <;> rw [h0] <;> simp [isBetWin, DOUBLE_ZERO]
  case even =>
    refine ⟨by simp [insideBet], fun _ => ?_, fun hzp _ => ?_⟩
    · rw [show outsideWinPred BetType.even r = (r % 2 = 0) from rfl]
      rw [← hz (r % 2 = 0)]
      simp [isBetWin]
    · rcases hzp with h0 | h0 <;> rw [h0] <;> simp [isBetWin, DOUBLE_ZERO]
  case low =>
    refine ⟨by simp [insideBet], fun _ => ?_, fun hzp _ => ?_⟩
    · rw [show outsideWinPred BetType.low r = (1 ≤ r ∧ r ≤ 18) from rfl]
      rw [← hz (1 ≤ r ∧ r ≤ 18)]
      simp [isBetWin]
      omega
    · rcases hzp with h0 | h0 <;> rw [h0] <;> simp [isBetWin, DOUBLE_ZERO]
  case high =>
    refine ⟨by simp [insideBet], fun _ => ?_, fun hzp _ => ?_⟩
    · rw [show outsideWinPred BetType.high r = (19 ≤ r ∧ r ≤ 36) from rfl]
      rw [← hz (19 ≤ r ∧ r ≤ 36)]
      simp [isBetWin]
      omega
    · rcases hzp with h0 | h0 <;> rw [h0] <;> simp [isBetWin, DOUBLE_ZERO]

/-- Witness for claim C2: a red bet wins on pocket 7 exactly because 7 is
not a zero pocket and is a member of the red set. -/
theorem claim_C2_win_condition_witness :
    (isBetWin { type := BetType.red, numbers := [], amount := 10 } 7 = true) ↔
      (¬ isZeroPocket 7 ∧ outsideWinPred BetType.red 7) :=
  (claim_C2_win_condition { type := BetType.red, numbers := [], amount := 10 } 7
    (by decide) (by decide)).2.1 (by decide)

/-- Claim C3, amended: from a fresh session with non-negative balance, any
sequence of placements, clears, and controller rounds (settlement
immediately followed by clearing the bets, as the session controller
performs it) keeps the balance non-negative and the total active wager at
most the balance. A bare settle without the subsequent clear leaves the
bets in place, breaks the wager bound, and, repeated, drives the balance
negative, as the counterexample shows. -/
theorem claim_C3_ledger_invariant (init : Int) (hinit : 0 ≤ init)
    (ops : List LedgerOp) (hops : ops.all isControllerOp = true) :
    0 ≤ (applyOps (createGameState init) ops).balance ∧
    getTotalBet (applyOps (createGameState init) ops) ≤
      (applyOps (createGameState init) ops).balance := by
  have h0 : LedgerInv (createGameState init) := by
    refine ⟨hinit, ?_, ?_, ?_⟩
    · show totalAmount [] ≤ init
      simpa [totalAmount] using hinit
    · intro b hb
      simp [createGameState] at hb
    · show (0 : Int) ≤ 5
      norm_num
  have h := ledgerInv_applyOps ops (createGameState init) h0 hops
  exact ⟨h.1, h.2.1⟩

/-- A controller-style demonstration sequence: place, full round, place,
clear. -/
def demoOps : List LedgerOp :=
  [LedgerOp.place BetType.straight [7], LedgerOp.round 7,
   LedgerOp.place BetType.red [], LedgerOp.clear]

/-- Witness for claim C3 on the demonstration sequence. -/
theorem claim_C3_ledger_invariant_witness :
    0 ≤ (applyOps (createGameState 1000) demoOps).balance ∧
    getTotalBet (applyOps (createGameState 1000) demoOps) ≤
      (applyOps (createGameState 1000) demoOps).balance :=
  claim_C3_ledger_invariant 1000 (by decide) demoOps (by decide)

/-- The state reached from a fresh balance of 5 by placing 5 on black and
then settling twice in a row on the red outcome 1. -/
def cexC3 : GameState :=
  applyOps (createGameState 5)
    [LedgerOp.place BetType.black [], LedgerOp.settle 1, LedgerOp.settle 1]

/-- Counterexample to claim C3 as stated: a sequence of placeBet and bare
settle operations drives the balance to minus five, because settlement
leaves the bets in place and charges them again on the next settle. -/
theorem claim_C3_counterexample :
    cexC3.balance = -5 ∧ ¬ 0 ≤ cexC3.balance := by
  decide

/-- Claim C4, amended: the de-duplication key of the ledger is the
category together with the target array compared element by element, so
after any operation sequence from a fresh session no two entries share
that key, and a successful placement whose category and array equal an
existing entry raises that entry by the selected chip instead of
appending; bets whose target sets are equal but ordered differently are
distinct keys and may coexist, as the counterexample shows. -/
theorem claim_C4_dedup_by_array_key :
    (∀ (init : Int) (ops : List LedgerOp),
      NoDupKeys (applyOps (createGameState init) ops).bets) ∧
    (∀ (s : GameState) (t : BetType) (ns : List Int),
      (placeBet s t ns).1 = true → s.bets.any (betMatches t ns) = true →
        ((placeBet s t ns).2.bets.length = s.bets.length ∧
          (placeBet s t ns).2.bets.map betKey = s.bets.map betKey ∧
          getTotalBet (placeBet s t ns).2 = getTotalBet s + s.selectedChip)) := by
  constructor
  · intro init ops
    exact noDupKeys_applyOps ops (createGameState init) List.Pairwise.nil
  · intro s t ns hsucc hmatch
    by_cases h1 : s.phase ≠ GamePhase.betting
    · exfalso
      unfold placeBet at hsucc
      rw [if_pos h1] at hsucc
      simp at hsucc
    · by_cases h2 : s.selectedChip > s.balance - getTotalBet s
      · exfalso
        unfold placeBet at hsucc
        rw [if_neg h1, if_pos h2] at hsucc
        simp at hsucc
      · have heq : placeBet s t ns =
            (true, { s with bets := addToExisting t ns s.selectedChip s.bets }) := by
          unfold placeBet
          rw [if_neg h1, if_neg h2, if_pos hmatch]
        rw [heq]
        refine ⟨?_, ?_, ?_⟩
        · exact length_addToExisting t ns s.selectedChip s.bets
        · exact map_betKey_addToExisting t ns s.selectedChip s.bets
        · exact totalAmount_addToExisting t ns s.selectedChip s.bets hmatch

/-- A session holding one straight bet of 5 on 7, placed on a fresh
session. -/
def stateC4 : GameState :=
  (placeBet (createGameState 1000) BetType.straight [7]).2

/-- Witness for claim C4: re-placing the identical bet merges, keeping the
key list and length and raising the total by the chip. -/
theorem claim_C4_dedup_by_array_key_witness :
    (placeBet stateC4 BetType.straight [7]).2.bets.length = stateC4.bets.length ∧
    (placeBet stateC4 BetType.straight [7]).2.bets.map betKey = stateC4.bets.map betKey ∧
    getTotalBet (placeBet stateC4 BetType.straight [7]).2 =
      getTotalBet stateC4 + stateC4.selectedChip :=
  claim_C4_dedup_by_array_key.2 stateC4 BetType.straight [7] (by decide) (by decide)

/-- The session reached by placing a split on the array seven-eight and
then a split on the array eight-seven. -/
def cexC4 : GameState :=
  (placeBet (placeBet (createGameState 1000) BetType.split [7, 8]).2 BetType.split [8, 7]).2

/-- Counterexample to claim C4 as stated: two bets with the same category
and the same target-pocket set, merely ordered differently, coexist as two
ledger entries, because the comparison is element by element. -/
theorem claim_C4_counterexample :
    cexC4.bets = [{ type := BetType.split, numbers := [7, 8], amount := 5 },
                  { type := BetType.split, numbers := [8, 7], amount := 5 }] ∧
    List.Perm [(7 : Int), 8] [8, 7] := by
  constructor
  · decide
  · exact List.Perm.swap 8 7 []

/-- Claim C6: the outcome passed to spin is committed before any frame
runs, and the promise resolves with exactly that pocket on every path of
both wheel variants, the reduced-motion skip, the full animation, and the
bounce phase, for every frame schedule and every choice of the randomized
animation parameters; composed with the controller flow, the resolved
value is the pocket drawn by generateResult before the animation started. -/
theorem claim_C6_precommitted_outcome :
    (∀ (target : Int) (env : SpinEnv) (v : Int),
      spinResolved target env = some v → v = target) ∧
    (∀ (target : Int) (env : SpinEnv) (v : Int),
      spinResolvedPlain target env = some v → v = target) ∧
    (∀ (u : ℚ) (env : SpinEnv) (v : Int),
      roundResolved u env = some v → v = generateResult u) := by
  have hmain : ∀ (target : Int) (env : SpinEnv) (v : Int),
      spinResolved target env = some v → v = target := by
    intro target env v h
    unfold spinResolved at h
    by_cases hr : env.reducedMotion
    · simp [hr] at h
      exact h.symm
    · simp [hr] at h
      exact animatePhase_some target env.startTime env.duration env.frames v h
  have hplain : ∀ (target : Int) (env : SpinEnv) (v : Int),
      spinResolvedPlain target env = some v → v = target := by
    intro target env v h
    unfold spinResolvedPlain at h
    by_cases hr : env.reducedMotion
    · simp [hr] at h
      exact h.symm
    · simp [hr] at h
      exact animatePlain_some target env.startTime env.duration env.frames v h
  exact ⟨hmain, hplain, fun u env v h => hmain (generateResult u) env v h⟩

/-- A concrete spin environment: full motion, duration 4000, four frames
of which the third ends the spin and the fourth ends the bounce. -/
def demoEnv : SpinEnv :=
  { reducedMotion := false, startTime := 0, duration := 4000, frames := [0, 1000, 6000, 7000] }

/-- Witness for claim C6: with the draw one half, the animation resolves
with pocket 18, the pocket committed before the first frame. -/
theorem claim_C6_precommitted_outcome_witness :
    (18 : Int) = generateResult (1 / 2 : ℚ) := by
  have hg : generateResult (1 / 2 : ℚ) = 18 := by
    unfold generateResult
    rw [show ((1 : ℚ) / 2) * 37 = 37 / 2 by ring, Int.floor_eq_iff]
    norm_num
  have hres : roundResolved (1 / 2 : ℚ) demoEnv = some 18 := by
    unfold roundResolved
    rw [hg]
    show spinResolved 18 demoEnv = some 18
    simp only [spinResolved, demoEnv]
    norm_num [animatePhase, bouncePhase, BOUNCE_DURATION_MS, min_def]
  exact claim_C6_precommitted_outcome.2.2 (1 / 2) demoEnv 18 hres

/-- Claim C7: with the random source modelled as a uniform rational in the
half-open unit interval, generateResult always yields an integer pocket
between 0 and 36, and the preimage of each pocket is the half-open
interval from k over 37 to k plus one over 37, so all 37 pockets have the
same source measure, one thirty-seventh. -/
theorem claim_C7_uniform_draw :
    (∀ u : ℚ, 0 ≤ u → u < 1 → 0 ≤ generateResult u ∧ generateResult u ≤ 36) ∧
    (∀ k : Int, 0 ≤ k → k ≤ 36 → ∀ u : ℚ, 0 ≤ u → u < 1 →
      (generateResult u = k ↔ ((k : ℚ) / 37 ≤ u ∧ u < ((k : ℚ) + 1) / 37))) ∧
    (∀ k : Int, ((k : ℚ) + 1) / 37 - (k : ℚ) / 37 = 1 / 37) := by
  refine ⟨?_, ?_, ?_⟩
  · intro u h0 h1
    constructor
    · have hnn : (0 : ℚ) ≤ u * 37 := mul_nonneg h0 (by norm_num)
      exact Int.floor_nonneg.mpr hnn
    · have h37 : u * 37 < 37 := by nlinarith
      have : generateResult u < 37 := by
        unfold generateResult
        apply Int.floor_lt.mpr
        push_cast
        exact h37
      omega
  · intro k hk0 hk36 u h0 h1
    unfold generateResult
    rw [Int.floor_eq_iff]
    rw [div_le_iff₀ (by norm_num : (0 : ℚ) < 37), lt_div_iff₀ (by norm_num : (0 : ℚ) < 37)]
  · intro k
    ring

/-- Witness for claim C7: the draw one half falls in the valid pocket
range. -/
theorem claim_C7_uniform_draw_witness :
    0 ≤ generateResult (1 / 2 : ℚ) ∧ generateResult (1 / 2 : ℚ) ≤ 36 :=
  claim_C7_uniform_draw.1 (1 / 2) (by norm_num) (by norm_num)

end Roulette
